import Mathlib

/-!
Verification of the CellClash authoritative server core (server/server.js,
shared/constants.js) against its natural-language specification.

JavaScript numbers are modelled by `JVal`: either a finite real or one of the
IEEE special values NaN, +Infinity, -Infinity.  The arithmetic, comparison and
Math.* operations below follow the ECMAScript semantics of the operations the
server actually uses (`+`, `-`, `*`, `/`, `<`, `>`, `Math.hypot`, `Math.sqrt`,
`Math.max`, `Math.floor`), with finite doubles idealized as exact reals.
`Math.random()` is modelled by an explicit oracle stream `ρ : ℕ → ℝ` together
with a counter for the next unconsumed value.
-/

noncomputable section

/-- A JavaScript number: NaN, +Infinity, -Infinity, or a finite value. -/
inductive JVal where
  | nan : JVal
  | inf : JVal
  | ninf : JVal
  | fin : ℝ → JVal
deriving DecidableEq

open JVal

/-- JS unary negation. -/
def jneg : JVal → JVal
  | nan => nan
  | inf => ninf
  | ninf => inf
  | fin a => fin (-a)

/-- JS addition. -/
def jadd : JVal → JVal → JVal
  | nan, _ => nan
  | _, nan => nan
  | inf, ninf => nan
  | ninf, inf => nan
  | inf, _ => inf
  | _, inf => inf
  | ninf, _ => ninf
  | _, ninf => ninf
  | fin a, fin b => fin (a + b)

/-- JS subtraction (`a - b` behaves as `a + (-b)`). -/
def jsub (a b : JVal) : JVal := jadd a (jneg b)

/-- JS multiplication. -/
def jmul : JVal → JVal → JVal
  | nan, _ => nan
  | _, nan => nan
  | inf, inf => inf
  | inf, ninf => ninf
  | ninf, inf => ninf
  | ninf, ninf => inf
  | inf, fin b => if 0 < b then inf else if b < 0 then ninf else nan
  | fin a, inf => if 0 < a then inf else if a < 0 then ninf else nan
  | ninf, fin b => if 0 < b then ninf else if b < 0 then inf else nan
  | fin a, ninf => if 0 < a then ninf else if a < 0 then inf else nan
  | fin a, fin b => fin (a * b)

/-- JS division (zeros treated as +0; the server never produces -0). -/
def jdiv : JVal → JVal → JVal
  | nan, _ => nan
  | _, nan => nan
  | inf, inf => nan
  | inf, ninf => nan
  | ninf, inf => nan
  | ninf, ninf => nan
  | inf, fin b => if b < 0 then ninf else inf
  | ninf, fin b => if b < 0 then inf else ninf
  | fin _, inf => fin 0
  | fin _, ninf => fin 0
  | fin a, fin b =>
      if b = 0 then (if a = 0 then nan else if 0 < a then inf else ninf)
      else fin (a / b)

/-- JS `<` comparison: false whenever an operand is NaN. -/
def jlt : JVal → JVal → Prop
  | nan, _ => False
  | _, nan => False
  | ninf, ninf => False
  | ninf, _ => True
  | _, ninf => False
  | inf, _ => False
  | fin _, inf => True
  | fin a, fin b => a < b

instance (a b : JVal) : Decidable (jlt a b) := Classical.propDecidable _

/-- JS `Math.max` of two arguments: NaN-propagating. -/
def jmax : JVal → JVal → JVal
  | nan, _ => nan
  | _, nan => nan
  | inf, _ => inf
  | _, inf => inf
  | ninf, b => b
  | a, ninf => a
  | fin a, fin b => fin (max a b)

/-- JS `Math.sqrt`. -/
def jsqrt : JVal → JVal
  | nan => nan
  | inf => inf
  | ninf => nan
  | fin a => if a < 0 then nan else fin (Real.sqrt a)

/-- JS `Math.hypot` of two arguments: +∞ if any argument is infinite (even
alongside NaN), NaN if any remaining argument is NaN. -/
def jhypot : JVal → JVal → JVal
  | inf, _ => inf
  | ninf, _ => inf
  | _, inf => inf
  | _, ninf => inf
  | nan, _ => nan
  | _, nan => nan
  | fin a, fin b => fin (Real.sqrt (a ^ 2 + b ^ 2))

/-- JS `Math.floor`. -/
def jfloor : JVal → JVal
  | nan => nan
  | inf => inf
  | ninf => ninf
  | fin a => fin (⌊a⌋ : ℤ)

namespace Constants

/-- shared/constants.js: MAP_WIDTH. -/
def MAP_WIDTH : ℝ := 2000

/-- shared/constants.js: MAP_HEIGHT. -/
def MAP_HEIGHT : ℝ := 2000

/-- shared/constants.js: INITIAL_RADIUS. -/
def INITIAL_RADIUS : ℝ := 10

/-- shared/constants.js: INITIAL_SPEED. -/
def INITIAL_SPEED : ℝ := 50

/-- shared/constants.js: MIN_SPEED. -/
def MIN_SPEED : ℝ := 2

/-- shared/constants.js: PELLET_COUNT. -/
def PELLET_COUNT : ℕ := 100

/-- shared/constants.js: PELLET_RADIUS. -/
def PELLET_RADIUS : ℝ := 4

/-- shared/constants.js: MAX_PLAYERS. -/
def MAX_PLAYERS : ℕ := 50

/-- shared/constants.js: `dist(x1, y1, x2, y2) = Math.hypot(x1 - x2, y1 - y2)`. -/
def dist (x1 y1 x2 y2 : JVal) : JVal := jhypot (jsub x1 x2) (jsub y1 y2)

end Constants

/-!
## World State and server operations (server/server.js)
-/

/-- A player entity, mirroring the object literal built in the join branch of
`ws.on('message')`.  The `color` field is the random hue `Math.floor(random*360)`
from `getRandomColor` (the code wraps it in an hsl string whose identity is the
hue). -/
structure Player where
  id : ℕ
  name : String
  x : JVal
  y : JVal
  radius : JVal
  dirX : JVal
  dirY : JVal
  color : ℤ
  score : JVal

/-- A pellet: `{x, y}`. -/
structure Pellet where
  x : JVal
  y : JVal

/-- The server's mutable state: `players` (a Map, modelled as its
insertion-ordered entry list with unique ids), `pellets`, `nextPlayerId`. -/
structure World where
  players : List Player
  pellets : List Pellet
  nextPlayerId : ℕ

/-- `players.get` by id: first entry with the given id. -/
def findPlayer (l : List Player) (i : ℕ) : Option Player :=
  l.find? (fun p => p.id = i)

/-- `players.set(p.id, p)`: update in place when the key exists, else append. -/
def mapSet (l : List Player) (p : Player) : List Player :=
  if l.any (fun q => q.id = p.id) then
    l.map (fun q => if q.id = p.id then p else q)
  else l ++ [p]

/-- `players.delete(i)`: remove the entry with key `i`. -/
def mapDelete (l : List Player) (i : ℕ) : List Player :=
  l.filter (fun p => p.id ≠ i)

/-- `initPellets()`: PELLET_COUNT pellets at random positions; returns the new
pellet array and the random-oracle counter after the 2·PELLET_COUNT draws. -/
def initPellets (ρ : ℕ → ℝ) (k : ℕ) : List Pellet × ℕ :=
  ((List.range Constants.PELLET_COUNT).map (fun i =>
      ⟨fin (ρ (k + 2 * i) * Constants.MAP_WIDTH),
       fin (ρ (k + 2 * i + 1) * Constants.MAP_HEIGHT)⟩),
   k + 2 * Constants.PELLET_COUNT)

/-- `getRandomSpawn()`: `{x: 50 + random*(W-100), y: 50 + random*(H-100)}`. -/
def getRandomSpawn (ρ : ℕ → ℝ) (k : ℕ) : (ℝ × ℝ) × ℕ :=
  ((50 + ρ k * (Constants.MAP_WIDTH - 2 * 50),
    50 + ρ (k + 1) * (Constants.MAP_HEIGHT - 2 * 50)), k + 2)

/-- `getRandomColor()`: the random hue `Math.floor(random * 360)`. -/
def getRandomColor (ρ : ℕ → ℝ) (k : ℕ) : ℤ × ℕ :=
  (⌊ρ k * 360⌋, k + 1)

/-- The freshly started server: no players, `initPellets()` run, `nextPlayerId = 1`. -/
def initialWorld (ρ : ℕ → ℝ) (k : ℕ) : World :=
  ⟨[], (initPellets ρ k).1, 1⟩

/-!
### Game loop phases (the `setInterval` body)
-/

/-- Movement phase body for one player: speed from radius, advance by heading,
clamp both coordinates to `[radius, mapDimension - radius]`. -/
def movePlayer (p : Player) : Player :=
  let speed := jmax (fin Constants.MIN_SPEED) (jdiv (fin Constants.INITIAL_SPEED) p.radius)
  let x1 := jadd p.x (jmul p.dirX speed)
  let y1 := jadd p.y (jmul p.dirY speed)
  let x2 := if jlt x1 p.radius then p.radius else x1
  let y2 := if jlt y1 p.radius then p.radius else y1
  let x3 := if jlt (jsub (fin Constants.MAP_WIDTH) p.radius) x2
            then jsub (fin Constants.MAP_WIDTH) p.radius else x2
  let y3 := if jlt (jsub (fin Constants.MAP_HEIGHT) p.radius) y2
            then jsub (fin Constants.MAP_HEIGHT) p.radius else y2
  { p with x := x3, y := y3 }

/-- The shared growth update: `oldArea = radius*radius; newArea = oldArea + a;
radius = sqrt(newArea); score = newArea` (pellet branch with `a` the pellet
area, player branch with `a` the victim's area). -/
def consumeArea (p : Player) (a : JVal) : Player :=
  let oldArea := jmul p.radius p.radius
  let newArea := jadd oldArea a
  { p with radius := jsqrt newArea, score := newArea }

/-- Pellet collision loop for one player: scan the pellet array in index order;
on contact (`dist < radius`) grow the player and relocate that pellet to a
fresh random position. -/
def eatPellets (p : Player) (pels : List Pellet) (ρ : ℕ → ℝ) (k : ℕ) :
    Player × List Pellet × ℕ :=
  match pels with
  | [] => (p, [], k)
  | pel :: rest =>
      if jlt (Constants.dist p.x p.y pel.x pel.y) p.radius then
        let p1 := consumeArea p (jmul (fin Constants.PELLET_RADIUS) (fin Constants.PELLET_RADIUS))
        let pel1 : Pellet := ⟨fin (ρ k * Constants.MAP_WIDTH), fin (ρ (k + 1) * Constants.MAP_HEIGHT)⟩
        let r := eatPellets p1 rest ρ (k + 2)
        (r.1, pel1 :: r.2.1, r.2.2)
      else
        let r := eatPellets p rest ρ k
        (r.1, pel :: r.2.1, r.2.2)

/-- Pellet collision phase: `players.forEach`, each player scanning the current
pellet array (relocations made by earlier players are visible to later ones). -/
def pelletPhase (ps : List Player) (pels : List Pellet) (ρ : ℕ → ℝ) (k : ℕ) :
    List Player × List Pellet × ℕ :=
  match ps with
  | [] => ([], pels, k)
  | p :: rest =>
      let r := eatPellets p pels ρ k
      let s := pelletPhase rest r.2.1 ρ r.2.2
      (r.1 :: s.1, s.2.1, s.2.2)

/-- Accumulator of the player-vs-player collision loop: the live player list
(objects are mutated in place), `eatenPlayers`, the death events handed to the
score ledger (victim id, name, floored final score), and the random counter. -/
structure CollSt where
  players : List Player
  eaten : List ℕ
  deaths : List (ℕ × String × JVal)
  k : ℕ

/-- `handlePlayerDeath`'s respawn: new random spawn, baseline radius/score,
zero heading; id, name, color kept. -/
def respawnPlayer (p : Player) (ρ : ℕ → ℝ) (k : ℕ) : Player × ℕ :=
  let s := getRandomSpawn ρ k
  ({ p with x := fin s.1.1, y := fin s.1.2,
            radius := fin Constants.INITIAL_RADIUS,
            score := jmul (fin Constants.INITIAL_RADIUS) (fin Constants.INITIAL_RADIUS),
            dirX := fin 0, dirY := fin 0 }, s.2)

/-- `handlePlayerDeath(player)`: emit the score-ledger record with the floored
pre-death score, respawn the player and `players.set` it back. -/
def handlePlayerDeath (l : List Player) (p : Player) (ρ : ℕ → ℝ) (k : ℕ) :
    List Player × (ℕ × String × JVal) × ℕ :=
  let record := (p.id, p.name, jfloor p.score)
  let r := respawnPlayer p ρ k
  (mapSet l r.1, record, r.2)

/-- Body of the nested `players.forEach` for the ordered pair (A = entry aId,
B = entry bId): skip self-pairs and pairs where A is strictly smaller; if B is
engulfed (`dist < 0.9 * A.radius`) and not already eaten this tick, record it
as eaten, grow A by B's area, and run `handlePlayerDeath(B)`. -/
def collideOne (ρ : ℕ → ℝ) (st : CollSt) (aId bId : ℕ) : CollSt :=
  match findPlayer st.players aId, findPlayer st.players bId with
  | some A, some B =>
      if aId = bId then st
      else if jlt A.radius B.radius then st
      else if jlt (Constants.dist A.x A.y B.x B.y) (jmul A.radius (fin 0.9)) then
        if bId ∈ st.eaten then st
        else
          let A1 := consumeArea A (jmul B.radius B.radius)
          let l1 := mapSet st.players A1
          let r := handlePlayerDeath l1 B ρ st.k
          { players := r.1, eaten := st.eaten ++ [bId],
            deaths := st.deaths ++ [r.2.1], k := r.2.2 }
      else st
  | _, _ => st

/-- Player-vs-player collision phase: both `forEach` loops visit the map's
(unchanging, insertion-ordered) key set while entry values evolve. -/
def collisionPhase (ps : List Player) (ρ : ℕ → ℝ) (k : ℕ) : CollSt :=
  let ids := ps.map Player.id
  ids.foldl (fun st a => ids.foldl (fun st2 b => collideOne ρ st2 a b) st)
    ⟨ps, [], [], k⟩

/-- One tick of the `setInterval` game loop: movement, pellet collisions,
player collisions, then `eatenPlayers.forEach(id => players.delete(id))`.
Returns the new world, the death events of the tick, and the random counter. -/
def tick (w : World) (ρ : ℕ → ℝ) (k : ℕ) : World × List (ℕ × String × JVal) × ℕ :=
  let ps1 := w.players.map movePlayer
  let r := pelletPhase ps1 w.pellets ρ k
  let st := collisionPhase r.1 ρ r.2.2
  let ps3 := st.eaten.foldl (fun l i => mapDelete l i) st.players
  ({ w with players := ps3, pellets := r.2.1 }, st.deaths, st.k)

/-!
### Connection message handling
-/

/-- A parsed inbound message: its `type` tag and the fields a client could
attach.  A field is `some v` when present with a numeric (for `dx`/`dy`/`x`/
`y`/`radius`/`score`) or string (for `name`) value. -/
structure Msg where
  type : String
  name : Option String
  dx : Option JVal
  dy : Option JVal
  x : Option JVal
  y : Option JVal
  radius : Option JVal
  score : Option JVal

/-- The join branch: truncate or default the nickname, draw a spawn and color,
build the player with baseline radius and `score = INITIAL_RADIUS²`, insert it.
Returns the world, the new player's id, and the random counter. -/
def handleJoin (w : World) (ρ : ℕ → ℝ) (k : ℕ) (nm : Option String) :
    World × ℕ × ℕ :=
  let nickname := match nm with
    | some s => if s = "" then "Player" else s.take 15
    | none => "Player"
  let s := getRandomSpawn ρ k
  let c := getRandomColor ρ s.2
  let p : Player :=
    { id := w.nextPlayerId, name := nickname,
      x := fin s.1.1, y := fin s.1.2,
      radius := fin Constants.INITIAL_RADIUS,
      dirX := fin 0, dirY := fin 0, color := c.1,
      score := jmul (fin Constants.INITIAL_RADIUS) (fin Constants.INITIAL_RADIUS) }
  ({ w with players := mapSet w.players p, nextPlayerId := w.nextPlayerId + 1 },
   p.id, c.2)

/-- The heading update inside the input branch: `mag = Math.hypot(dx, dy)`;
normalize when `mag > 0`, else zero the heading. -/
def updateDir (p : Player) (dx dy : JVal) : Player :=
  let mag := jhypot dx dy
  if jlt (fin 0) mag then { p with dirX := jdiv dx mag, dirY := jdiv dy mag }
  else { p with dirX := fin 0, dirY := fin 0 }

/-- The input branch: only when both `dx` and `dy` are present as numbers is
the connection's player's heading updated; every other field is ignored. -/
def handleInput (w : World) (pid : ℕ) (dx dy : Option JVal) : World :=
  match dx, dy with
  | some a, some b =>
      { w with players := w.players.map (fun p => if p.id = pid then updateDir p a b else p) }
  | _, _ => w

/-- `ws.on('message')` dispatch: `join` allocates a player and records the id
on the connection; `input` (when this connection has joined) updates the
heading from `dx`/`dy`; everything else is ignored. -/
def handleMessage (w : World) (conn : Option ℕ) (ρ : ℕ → ℝ) (k : ℕ) (m : Msg) :
    World × Option ℕ × ℕ :=
  if m.type = "join" then
    let r := handleJoin w ρ k m.name
    (r.1, some r.2.1, r.2.2)
  else if m.type = "input" then
    match conn with
    | some pid => (handleInput w pid m.dx m.dy, conn, k)
    | none => (w, conn, k)
  else (w, conn, k)

/-!
### Broadcast snapshots
-/

/-- One entry of a broadcast player list. -/
structure Snap where
  id : ℕ
  name : String
  x : JVal
  y : JVal
  radius : JVal
  color : ℤ
  score : JVal

/-- The per-player snapshot entry with a given reported score. -/
def snapOf (p : Player) (s : JVal) : Snap :=
  ⟨p.id, p.name, p.x, p.y, p.radius, p.color, s⟩

/-- The `init` message's player list (join branch): `score: p.score`, raw. -/
def initSnapshot (w : World) : List Snap :=
  w.players.map (fun p => snapOf p p.score)

/-- The periodic `update` broadcast's player list: `score: Math.floor(p.score)`. -/
def updateSnapshot (w : World) : List Snap :=
  w.players.map (fun p => snapOf p (jfloor p.score))

/-- The world states the server process can actually be in: the initial state,
closed under message handling, game-loop ticks, and connection-close removal. -/
inductive Reachable : World → Prop where
  | init : ∀ ρ k, Reachable (initialWorld ρ k)
  | step_msg : ∀ w conn ρ k m, Reachable w → Reachable (handleMessage w conn ρ k m).1
  | step_tick : ∀ w ρ k, Reachable w → Reachable (tick w ρ k).1
  | step_close : ∀ w i, Reachable w → Reachable { w with players := mapDelete w.players i }

/-!
### Named states and inputs used in concrete evaluations
-/

/-- A fixed random oracle (every `Math.random()` call returns 0). -/
def zeroRng : ℕ → ℝ := fun _ => 0

/-- A player literal with finite numeric fields. -/
def mkP (i : ℕ) (x y r dx dy s : ℝ) : Player :=
  ⟨i, "P", fin x, fin y, fin r, fin dx, fin dy, 0, fin s⟩

/-- A player whose radius (1500) exceeds half the map width. -/
def pOversize : Player := mkP 1 500 1000 1500 (-1) 0 2250000

/-- A player whose `x` is NaN while `y`, radius and heading are finite. -/
def pNanX : Player := ⟨1, "P", nan, fin 100, fin 10, fin 0, fin 1, 0, fin 100⟩

/-- A world holding only `pNanX`, with no pellets. -/
def wNanX : World := ⟨[pNanX], [], 2⟩

/-- Two overlapping players: id 1 (radius 10) on top of id 2 (radius 6). -/
def wEaten : World := ⟨[mkP 1 1000 1000 10 0 0 100, mkP 2 1000 1000 6 0 0 36], [], 3⟩

/-- A single player currently heading along +x. -/
def pHeading : Player := mkP 1 1000 1000 10 1 0 100

/-- A world holding only `pHeading`. -/
def wHeading : World := ⟨[pHeading], [], 2⟩

/-- A world already holding `MAX_PLAYERS` (50) live players, ids 1..50. -/
def w50 : World := ⟨(List.range 50).map (fun i => mkP (i + 1) 1000 1000 10 0 0 100), [], 51⟩

/-- An input message that also smuggles `x`/`y`/`radius`/`score` fields. -/
def mInputA : Msg :=
  ⟨"input", none, some (fin 3), some (fin 4),
   some (fin 999), some (fin 999), some (fin 999), some (fin 999)⟩

/-- The same movement intent without the smuggled fields. -/
def mInputB : Msg := ⟨"input", none, some (fin 3), some (fin 4), none, none, none, none⟩

/-- A player whose score has drifted off the integers, the state IEEE doubles
produce after two pellet consumptions in the running server (score 116 gives
radius `Math.sqrt(116)`, and the next consumption reads back
`oldArea = radius * radius = 116.00000000000001`, so the stored score becomes
`132.00000000000001`); radius is `sqrt(score)` as the growth update maintains. -/
def pFrac : Player :=
  ⟨1, "P", fin 100, fin 100, fin (Real.sqrt 132.00000000000001), fin 0, fin 0, 0,
   fin 132.00000000000001⟩

/-- A world holding only `pFrac`. -/
def wFrac : World := ⟨[pFrac], [], 2⟩

/-- The property claimed of every entity after the movement phase: its full
circle lies within the map (`radius ≤ x ≤ mapWidth − radius` and symmetrically
for y, which in particular requires finite values). -/
def BoundsOk (p : Player) : Prop :=
  ∃ r x y : ℝ, p.radius = fin r ∧ p.x = fin x ∧ p.y = fin y ∧
    r ≤ x ∧ x ≤ Constants.MAP_WIDTH - r ∧ r ≤ y ∧ y ≤ Constants.MAP_HEIGHT - r

/-- The numeric-state invariant of a live entity: its score is a natural
number and its radius is the square root of that score. -/
def GoodPlayer (p : Player) : Prop :=
  ∃ n : ℕ, p.score = fin n ∧ p.radius = fin (Real.sqrt n)

/-- All live entities satisfy `GoodPlayer`. -/
def GoodWorld (w : World) : Prop := ∀ p ∈ w.players, GoodPlayer p

/-!
## Constructor-level equations for the JS number operations
-/

@[simp] theorem jneg_fin (a : ℝ) : jneg (fin a) = fin (-a) := rfl

@[simp] theorem jadd_fin_fin (a b : ℝ) : jadd (fin a) (fin b) = fin (a + b) := rfl

@[simp] theorem jadd_nan_left (v : JVal) : jadd nan v = nan := by
  cases v <;> rfl

@[simp] theorem jadd_nan_right (v : JVal) : jadd v nan = nan := by
  cases v <;> rfl

@[simp] theorem jsub_fin_fin (a b : ℝ) : jsub (fin a) (fin b) = fin (a - b) := by
  simp [jsub, sub_eq_add_neg]

@[simp] theorem jmul_fin_fin (a b : ℝ) : jmul (fin a) (fin b) = fin (a * b) := rfl

@[simp] theorem jmul_nan_left (v : JVal) : jmul nan v = nan := by
  cases v <;> rfl

@[simp] theorem jdiv_fin_fin (a b : ℝ) (h : b ≠ 0) :
    jdiv (fin a) (fin b) = fin (a / b) := by
  simp [jdiv, h]

@[simp] theorem jdiv_inf_inf : jdiv inf inf = nan := rfl

@[simp] theorem jdiv_fin_inf (a : ℝ) : jdiv (fin a) inf = fin 0 := rfl

@[simp] theorem jlt_fin_fin (a b : ℝ) : jlt (fin a) (fin b) ↔ a < b := Iff.rfl

@[simp] theorem jlt_fin_inf (a : ℝ) : jlt (fin a) inf := trivial

@[simp] theorem not_jlt_nan_left (v : JVal) : ¬ jlt nan v := by
  cases v <;> exact fun h => h

@[simp] theorem not_jlt_nan_right (v : JVal) : ¬ jlt v nan := by
  cases v <;> exact fun h => h

@[simp] theorem not_jlt_inf_left (v : JVal) : ¬ jlt inf v := by
  cases v <;> exact fun h => h

@[simp] theorem jmax_fin_fin (a b : ℝ) : jmax (fin a) (fin b) = fin (max a b) := rfl

@[simp] theorem jsqrt_fin (a : ℝ) (h : ¬ a < 0) : jsqrt (fin a) = fin (Real.sqrt a) := by
  simp [jsqrt, h]

@[simp] theorem jhypot_fin_fin (a b : ℝ) :
    jhypot (fin a) (fin b) = fin (Real.sqrt (a ^ 2 + b ^ 2)) := rfl

@[simp] theorem jhypot_nan_fin (b : ℝ) : jhypot nan (fin b) = nan := rfl

@[simp] theorem jhypot_inf_fin (b : ℝ) : jhypot inf (fin b) = inf := rfl

@[simp] theorem jfloor_fin (a : ℝ) : jfloor (fin a) = fin (⌊a⌋ : ℤ) := rfl

@[simp] theorem fin_injEq (a b : ℝ) : fin a = fin b ↔ a = b := by
  constructor
  · intro h; injection h
  · intro h; rw [h]

@[simp] theorem fin_ne_nan (a : ℝ) : fin a ≠ nan := fun h => by injection h

@[simp] theorem nan_ne_fin (a : ℝ) : nan ≠ fin a := fun h => by injection h

theorem jlt_zero_fin (m : ℝ) : jlt (fin 0) (fin m) ↔ 0 < m := Iff.rfl

/-- `dist` between two finitely-positioned points. -/
theorem dist_fin (x1 y1 x2 y2 : ℝ) :
    Constants.dist (fin x1) (fin y1) (fin x2) (fin y2)
      = fin (Real.sqrt ((x1 - x2) ^ 2 + (y1 - y2) ^ 2)) := by
  simp [Constants.dist]

/-!
## Structural lemmas
-/

theorem mapSet_of_fresh (l : List Player) (p : Player)
    (h : ∀ q ∈ l, q.id ≠ p.id) : mapSet l p = l ++ [p] := by
  unfold mapSet
  rw [if_neg]
  simp only [List.any_eq_true, decide_eq_true_eq, not_exists]
  intro q hq
  exact h q hq.1 hq.2

theorem foldl_preserve {α β : Type} (P : α → Prop) (f : α → β → α)
    (hf : ∀ s b, P s → P (f s b)) :
    ∀ (l : List β) (s : α), P s → P (l.foldl f s) := by
  intro l
  induction l with
  | nil => intro s hs; exact hs
  | cons b t ih => intro s hs; exact ih (f s b) (hf s b hs)

/-!
## Claim theorems
-/

/-- C8: for every inbound message, the explicit `x`, `y`, `radius`, `score`
fields have zero effect on entity state: two runs whose messages agree on
`type`, `name`, `dx`, `dy` (and may differ arbitrarily in those fields)
produce identical World State; only `dx`/`dy` of a movement intent influence
movement. -/
theorem c8_client_state_fields_ignored
    (w : World) (conn : Option ℕ) (ρ : ℕ → ℝ) (k : ℕ) (m1 m2 : Msg)
    (ht : m1.type = m2.type) (hn : m1.name = m2.name)
    (hdx : m1.dx = m2.dx) (hdy : m1.dy = m2.dy) :
    handleMessage w conn ρ k m1 = handleMessage w conn ρ k m2 := by
  simp only [handleMessage, ht, hn, hdx, hdy]

/-- C8 witness: an input message smuggling `x`/`y`/`radius`/`score` fields
yields the same world as the same movement intent without them. -/
theorem c8_client_state_fields_ignored_witness :
    (mInputA.type = mInputB.type ∧ mInputA.dx = mInputB.dx ∧ mInputA.dy = mInputB.dy) ∧
      handleMessage wHeading (some 1) zeroRng 0 mInputA
        = handleMessage wHeading (some 1) zeroRng 0 mInputB :=
  ⟨⟨rfl, rfl, rfl⟩,
   c8_client_state_fields_ignored wHeading (some 1) zeroRng 0 mInputA mInputB
     rfl rfl rfl rfl⟩

/-- C10: a well-formed join allocates and inserts a new entity unconditionally:
even when the live-entity count already meets or exceeds the configured
`MAX_PLAYERS` (50), the count still grows by one — the bound is never
consulted. -/
theorem c10_join_ignores_max_players
    (w : World) (ρ : ℕ → ℝ) (k : ℕ) (nm : Option String)
    (hfresh : ∀ q ∈ w.players, q.id ≠ w.nextPlayerId)
    (hfull : Constants.MAX_PLAYERS ≤ w.players.length) :
    (handleJoin w ρ k nm).1.players.length = w.players.length + 1 ∧
      Constants.MAX_PLAYERS = 50 := by
  constructor
  · simp only [handleJoin]
    rw [mapSet_of_fresh _ _ hfresh]
    simp
  · rfl

/-- C10 witness: joining a world that already holds 50 players still inserts a
51st. -/
theorem c10_join_ignores_max_players_witness :
    w50.players.length = 50 ∧
      ((handleJoin w50 zeroRng 0 none).1.players.length = w50.players.length + 1 ∧
        Constants.MAX_PLAYERS = 50) := by
  refine ⟨by simp [w50], ?_⟩
  refine c10_join_ignores_max_players w50 zeroRng 0 none ?_ ?_
  · intro q hq
    simp only [w50, List.mem_map, List.mem_range] at hq
    obtain ⟨i, hi, rfl⟩ := hq
    simp only [w50, mkP]
    omega
  · simp [w50, Constants.MAX_PLAYERS]

/-- C2 counterexample: the movement-input branch does not validate finiteness.
A message with `dx = NaN`, `dy = 0` is not dropped: it resets a previously
non-zero heading to the zero vector, so entity state changes. -/
theorem c2_nonfinite_input_changes_state :
    (handleInput wHeading 1 (some nan) (some (fin 0))).players.map Player.dirX = [fin 0] ∧
      wHeading.players.map Player.dirX = [fin 1] ∧ fin (0 : ℝ) ≠ fin 1 := by
  refine ⟨?_, by simp [wHeading, pHeading, mkP], by simp⟩
  simp [handleInput, updateDir, wHeading, pHeading, mkP]

/-- C2 amended: if both `dx` and `dy` are numbers the heading is always
overwritten — a finite non-zero vector is stored normalized to unit length, the
zero vector zeroes the heading, a NaN component zeroes the heading (rather than
leaving state unchanged), and an infinite `dx` stores a NaN heading component;
only a missing/non-numeric `dx` or `dy` leaves the entity untouched. -/
theorem c2_heading_update_behavior :
    (∀ (p : Player) (a b : ℝ), a ≠ 0 ∨ b ≠ 0 →
      (updateDir p (fin a) (fin b)).dirX = fin (a / Real.sqrt (a ^ 2 + b ^ 2)) ∧
      (updateDir p (fin a) (fin b)).dirY = fin (b / Real.sqrt (a ^ 2 + b ^ 2)) ∧
      (a / Real.sqrt (a ^ 2 + b ^ 2)) ^ 2 + (b / Real.sqrt (a ^ 2 + b ^ 2)) ^ 2 = 1) ∧
    (∀ p : Player,
      (updateDir p (fin 0) (fin 0)).dirX = fin 0 ∧ (updateDir p (fin 0) (fin 0)).dirY = fin 0) ∧
    (∀ (p : Player) (b : ℝ),
      (updateDir p nan (fin b)).dirX = fin 0 ∧ (updateDir p nan (fin b)).dirY = fin 0) ∧
    (∀ (p : Player) (b : ℝ),
      (updateDir p inf (fin b)).dirX = nan ∧ (updateDir p inf (fin b)).dirY = fin 0) ∧
    (∀ (w : World) (pid : ℕ) (dy : Option JVal), handleInput w pid none dy = w) ∧
    (∀ (w : World) (pid : ℕ) (dx : Option JVal), handleInput w pid dx none = w) := by
  refine ⟨?_, ?_, ?_, ?_, ?_, ?_⟩
  · intro p a b h
    have h2 : 0 < a ^ 2 + b ^ 2 := by
      rcases h with h | h
      · have := mul_self_pos.mpr h
        nlinarith [sq_nonneg b]
      · have := mul_self_pos.mpr h
        nlinarith [sq_nonneg a]
    have hm : 0 < Real.sqrt (a ^ 2 + b ^ 2) := Real.sqrt_pos.mpr h2
    have hm' : Real.sqrt (a ^ 2 + b ^ 2) ≠ 0 := ne_of_gt hm
    refine ⟨?_, ?_, ?_⟩
    · simp only [updateDir, jhypot_fin_fin]
      rw [if_pos (by simpa using hm)]
      simp [hm']
    · simp only [updateDir, jhypot_fin_fin]
      rw [if_pos (by simpa using hm)]
      simp [hm']
    · rw [div_pow, div_pow, div_add_div_same, Real.sq_sqrt h2.le]
      exact div_self (ne_of_gt h2)
  · intro p
    simp [updateDir]
  · intro p b
    simp [updateDir]
  · intro p b
    constructor
    · simp only [updateDir]
      rw [if_pos (by simp [jhypot, jlt])]
      rfl
    · simp only [updateDir]
      rw [if_pos (by simp [jhypot, jlt])]
      rfl
  · intro w pid dy
    cases dy <;> rfl
  · intro w pid dx
    cases dx <;> rfl

/-- C2 witness: the finite input (3, 4) is stored normalized, with unit
length. -/
theorem c2_heading_update_behavior_witness :
    ((3 : ℝ) ≠ 0 ∨ (4 : ℝ) ≠ 0) ∧
      ((updateDir pHeading (fin 3) (fin 4)).dirX = fin (3 / Real.sqrt (3 ^ 2 + 4 ^ 2)) ∧
       (updateDir pHeading (fin 3) (fin 4)).dirY = fin (4 / Real.sqrt (3 ^ 2 + 4 ^ 2)) ∧
       (3 / Real.sqrt ((3 : ℝ) ^ 2 + 4 ^ 2)) ^ 2 + (4 / Real.sqrt ((3 : ℝ) ^ 2 + 4 ^ 2)) ^ 2 = 1) :=
  ⟨Or.inl (by norm_num),
   c2_heading_update_behavior.1 pHeading 3 4 (Or.inl (by norm_num))⟩

/-- C3 counterexample: an entity whose `x` is NaN at the start of the tick is
not skipped by the tick's movement: its finite `y` still advances (100 → 105),
where the claim requires its state to be left untouched for that tick. -/
theorem c3_nan_entity_not_skipped :
    (tick wNanX zeroRng 0).1.players.map Player.y = [fin 105] ∧
      wNanX.players.map Player.y = [fin 100] ∧ fin (105 : ℝ) ≠ fin 100 := by
  refine ⟨?_, by simp [wNanX, pNanX], by simp⟩
  norm_num [tick, wNanX, pNanX, movePlayer, pelletPhase, eatPellets,
    collisionPhase, collideOne, findPlayer, mapDelete, jmax, jdiv, jadd, jmul,
    jlt, jsub, jneg, max_def, Constants.MIN_SPEED, Constants.INITIAL_SPEED,
    Constants.MAP_WIDTH, Constants.MAP_HEIGHT]

/-- C3 amended: the tick contains no finiteness check at all — the movement
phase applies the movement update to every entity, whatever its numeric state;
a NaN `x` merely propagates (the entity's `x` stays NaN) while its finite `y`
still advances by `dirY * speed` exactly as for a healthy entity. -/
theorem c3_movement_processes_every_entity :
    (∀ ps : List Player, (ps.map movePlayer).length = ps.length ∧
      ∀ (i : ℕ) (h : i < ps.length),
        (ps.map movePlayer).get ⟨i, by simpa using h⟩ = movePlayer (ps.get ⟨i, h⟩)) ∧
    (∀ (p : Player) (y r d : ℝ), p.x = nan → p.y = fin y → p.radius = fin r →
      0 < r → p.dirY = fin d →
      r ≤ y + d * max Constants.MIN_SPEED (Constants.INITIAL_SPEED / r) →
      y + d * max Constants.MIN_SPEED (Constants.INITIAL_SPEED / r) ≤ Constants.MAP_HEIGHT - r →
      (movePlayer p).x = nan ∧
        (movePlayer p).y = fin (y + d * max Constants.MIN_SPEED (Constants.INITIAL_SPEED / r))) := by
  constructor
  · intro ps
    exact ⟨by simp, fun i h => List.get_map ..⟩
  · intro p y r d hx hy hr h0 hd hlo hhi
    have hr0 : r ≠ 0 := ne_of_gt h0
    have hy2 : ¬ (y + d * max Constants.MIN_SPEED (Constants.INITIAL_SPEED / r) < r) :=
      not_lt.mpr hlo
    have hy3 : ¬ (Constants.MAP_HEIGHT - r
        < y + d * max Constants.MIN_SPEED (Constants.INITIAL_SPEED / r)) :=
      not_lt.mpr hhi
    simp [movePlayer, hx, hy, hr, hd, jdiv_fin_fin _ _ hr0, hy2, hy3]

/-- C3 witness for the amended theorem: the NaN-`x` entity `pNanX` has its `y`
advanced from 100 to `100 + 1 * max(2, 50/10)` by the movement update. -/
theorem c3_movement_processes_every_entity_witness :
    (0 : ℝ) < 10 ∧
      ((movePlayer pNanX).x = nan ∧
        (movePlayer pNanX).y
          = fin (100 + 1 * max Constants.MIN_SPEED (Constants.INITIAL_SPEED / 10))) :=
  ⟨by norm_num,
   c3_movement_processes_every_entity.2 pNanX 100 10 1 rfl rfl rfl (by norm_num) rfl
     (by norm_num [Constants.MIN_SPEED, Constants.INITIAL_SPEED, max_def])
     (by norm_num [Constants.MIN_SPEED, Constants.INITIAL_SPEED, Constants.MAP_HEIGHT, max_def])⟩

/-- C5 counterexample: the claimed bound fails for an entity whose radius
exceeds half the map: with radius 1500, after movement and clamping the final
`x` is `mapWidth − radius = 500 < radius`, so
`radius ≤ x ≤ mapWidth − radius` cannot hold. -/
theorem c5_bounds_counterexample :
    (movePlayer pOversize).radius = fin 1500 ∧ (movePlayer pOversize).x = fin 500 ∧
      ¬ BoundsOk (movePlayer pOversize) := by
  have hrad : (movePlayer pOversize).radius = fin 1500 := rfl
  have hx : (movePlayer pOversize).x = fin 500 := by
    norm_num [movePlayer, pOversize, mkP, jmax, jdiv, jadd, jmul, jlt, jsub,
      jneg, max_def, Constants.MIN_SPEED, Constants.INITIAL_SPEED,
      Constants.MAP_WIDTH, Constants.MAP_HEIGHT]
  refine ⟨hrad, hx, ?_⟩
  rintro ⟨r, x, y, hr, hx2, hy2, h1, h2, h3, h4⟩
  rw [hrad] at hr
  rw [hx] at hx2
  rw [fin_injEq] at hr hx2
  rw [← hr, ← hx2] at h1
  linarith

/-- C5 amended: the bounds invariant holds for every entity whose numeric state
is finite and whose radius is positive and at most half of each map dimension:
after movement and clamping, `radius ≤ x ≤ mapWidth − radius` and
`radius ≤ y ≤ mapHeight − radius`. -/
theorem c5_bounds_after_movement
    (p : Player) (r x y dx dy : ℝ)
    (hR : p.radius = fin r) (hx : p.x = fin x) (hy : p.y = fin y)
    (hdx : p.dirX = fin dx) (hdy : p.dirY = fin dy)
    (h0 : 0 < r) (hw : 2 * r ≤ Constants.MAP_WIDTH) (hh : 2 * r ≤ Constants.MAP_HEIGHT) :
    BoundsOk (movePlayer p) := by
  have hr0 : r ≠ 0 := ne_of_gt h0
  have hw' : r ≤ Constants.MAP_WIDTH - r := by linarith
  have hh' : r ≤ Constants.MAP_HEIGHT - r := by linarith
  simp only [movePlayer, hR, hx, hy, hdx, hdy, jdiv_fin_fin _ _ hr0, jmax_fin_fin,
    jadd_fin_fin, jmul_fin_fin, jsub_fin_fin, jlt_fin_fin, ← apply_ite fin]
  refine ⟨r, _, _, by simp [hR], rfl, rfl, ?_, ?_, ?_, ?_⟩ <;>
    · split_ifs <;> linarith

/-- C5 witness: a radius-10 entity in the middle of the map satisfies the
bounds after movement. -/
theorem c5_bounds_after_movement_witness :
    (0 : ℝ) < 10 ∧ BoundsOk (movePlayer pHeading) :=
  ⟨by norm_num,
   c5_bounds_after_movement pHeading 10 1000 1000 1 0 rfl rfl rfl rfl rfl
     (by norm_num) (by norm_num [Constants.MAP_WIDTH])
     (by norm_num [Constants.MAP_HEIGHT])⟩

theorem consumeArea_foldl :
    ∀ (l : List ℝ) (p : Player) (t : ℝ), p.radius = fin t → p.score = fin (t * t) →
      0 ≤ t → (∀ a ∈ l, 0 ≤ a) →
      (l.foldl (fun q a => consumeArea q (fin a)) p).score = fin (t * t + l.sum) ∧
      (l.foldl (fun q a => consumeArea q (fin a)) p).radius
        = fin (Real.sqrt (t * t + l.sum)) := by
  intro l
  induction l with
  | nil =>
      intro p t hr hs ht _
      refine ⟨by simpa using hs, ?_⟩
      simpa [Real.sqrt_mul_self ht] using hr
  | cons a rest ih =>
      intro p t hr hs ht hmem
      have ha : 0 ≤ a := hmem a (List.mem_cons_self a rest)
      have hrest : ∀ b ∈ rest, 0 ≤ b := fun b hb => hmem b (List.mem_cons_of_mem a hb)
      have hnonneg : 0 ≤ t * t + a := by nlinarith
      have hstep_r : (consumeArea p (fin a)).radius = fin (Real.sqrt (t * t + a)) := by
        simp [consumeArea, hr, jsqrt_fin _ (not_lt.mpr hnonneg)]
      have hstep_s : (consumeArea p (fin a)).score = fin ((Real.sqrt (t * t + a)) * (Real.sqrt (t * t + a))) := by
        simp [consumeArea, hr, Real.mul_self_sqrt hnonneg]
      have := ih (consumeArea p (fin a)) (Real.sqrt (t * t + a)) hstep_r hstep_s
        (Real.sqrt_nonneg _) hrest
      rw [List.foldl_cons]
      rw [this.1, this.2, Real.mul_self_sqrt hnonneg]
      constructor <;> · rw [List.sum_cons]; ring_nf

/-- C7: growth is additive in area: starting from baseline radius `t` (area
`t·t`, with `score = area`), after any sequence of consumptions the score is
exactly the baseline area plus the sum of all consumed areas and the radius is
its square root — and the resulting score is invariant under permuting the
order of consumption. -/
theorem c7_area_additivity :
    (∀ (p : Player) (t : ℝ) (l : List ℝ), p.radius = fin t → p.score = fin (t * t) →
      0 ≤ t → (∀ a ∈ l, 0 ≤ a) →
      (l.foldl (fun q a => consumeArea q (fin a)) p).score = fin (t * t + l.sum) ∧
      (l.foldl (fun q a => consumeArea q (fin a)) p).radius
        = fin (Real.sqrt (t * t + l.sum))) ∧
    (∀ (p : Player) (t : ℝ) (l l' : List ℝ), p.radius = fin t → p.score = fin (t * t) →
      0 ≤ t → (∀ a ∈ l, 0 ≤ a) → l.Perm l' →
      (l.foldl (fun q a => consumeArea q (fin a)) p).score
        = (l'.foldl (fun q a => consumeArea q (fin a)) p).score) := by
  refine ⟨fun p t l hr hs ht hm => consumeArea_foldl l p t hr hs ht hm, ?_⟩
  intro p t l l' hr hs ht hm hperm
  have hm' : ∀ a ∈ l', 0 ≤ a := fun a ha => hm a (hperm.mem_iff.mpr ha)
  rw [(consumeArea_foldl l p t hr hs ht hm).1, (consumeArea_foldl l' p t hr hs ht hm').1,
    hperm.sum_eq]

/-- C7 witness: consuming areas 16 then 36 starting from radius 10 yields score
`100 + 52` and radius `sqrt 152`. -/
theorem c7_area_additivity_witness :
    (0 : ℝ) ≤ 10 ∧
      ((([16, 36] : List ℝ).foldl (fun q a => consumeArea q (fin a)) pHeading).score
          = fin (10 * 10 + ([16, 36] : List ℝ).sum) ∧
        (([16, 36] : List ℝ).foldl (fun q a => consumeArea q (fin a)) pHeading).radius
          = fin (Real.sqrt (10 * 10 + ([16, 36] : List ℝ).sum))) :=
  ⟨by norm_num,
   c7_area_additivity.1 pHeading 10 [16, 36] rfl (by norm_num [pHeading, mkP]) (by norm_num)
     (by
       intro a ha
       simp only [List.mem_cons, List.not_mem_nil, or_false] at ha
       rcases ha with rfl | rfl <;> norm_num)⟩

theorem eatPellets_pellets_length (pels : List Pellet) :
    ∀ (p : Player) (ρ : ℕ → ℝ) (k : ℕ),
      ((eatPellets p pels ρ k).2.1).length = pels.length := by
  induction pels with
  | nil => intro p ρ k; rfl
  | cons pel rest ih =>
      intro p ρ k
      simp only [eatPellets]
      split_ifs with h <;> simp [ih]

theorem pelletPhase_pellets_length (ps : List Player) :
    ∀ (pels : List Pellet) (ρ : ℕ → ℝ) (k : ℕ),
      ((pelletPhase ps pels ρ k).2.1).length = pels.length := by
  induction ps with
  | nil => intro pels ρ k; rfl
  | cons p rest ih =>
      intro pels ρ k
      simp only [pelletPhase]
      rw [ih, eatPellets_pellets_length]

theorem tick_pellets_length (w : World) (ρ : ℕ → ℝ) (k : ℕ) :
    ((tick w ρ k).1).pellets.length = w.pellets.length := by
  simp only [tick]
  exact pelletPhase_pellets_length _ _ _ _

theorem handleMessage_pellets (w : World) (conn : Option ℕ) (ρ : ℕ → ℝ) (k : ℕ)
    (m : Msg) : (handleMessage w conn ρ k m).1.pellets = w.pellets := by
  simp only [handleMessage]
  split_ifs with h1 h2
  · rfl
  · cases conn with
    | none => rfl
    | some pid =>
        simp only [handleInput]
        cases m.dx <;> cases m.dy <;> rfl
  · rfl

/-- C6: the resource pool size is invariant: every tick leaves the pellet
count unchanged (consumption relocates, never removes or creates), and in
every reachable server state the pellet count equals the configured
`PELLET_COUNT` for the lifetime of the process. -/
theorem c6_pellet_pool_invariant :
    (∀ (w : World) (ρ : ℕ → ℝ) (k : ℕ),
      ((tick w ρ k).1).pellets.length = w.pellets.length) ∧
    (∀ w : World, Reachable w → w.pellets.length = Constants.PELLET_COUNT) := by
  refine ⟨tick_pellets_length, ?_⟩
  intro w hw
  induction hw with
  | init ρ k => simp [initialWorld, initPellets]
  | step_msg w conn ρ k m _ ih => rw [handleMessage_pellets]; exact ih
  | step_tick w ρ k _ ih => rw [tick_pellets_length]; exact ih
  | step_close w i _ ih => exact ih

/-- C6 witness: the freshly initialized world carries exactly `PELLET_COUNT`
pellets. -/
theorem c6_pellet_pool_invariant_witness :
    (initialWorld zeroRng 0).pellets.length = Constants.PELLET_COUNT :=
  c6_pellet_pool_invariant.2 _ (Reachable.init zeroRng 0)

@[simp] theorem consumeArea_id (p : Player) (a : JVal) : (consumeArea p a).id = p.id := rfl

@[simp] theorem respawnPlayer_id (p : Player) (ρ : ℕ → ℝ) (k : ℕ) :
    ((respawnPlayer p ρ k).1).id = p.id := rfl

theorem findPlayer_id {l : List Player} {i : ℕ} {p : Player}
    (h : findPlayer l i = some p) : p.id = i := by
  simpa using List.find?_some h

theorem collideOne_self (ρ : ℕ → ℝ) (st : CollSt) (i : ℕ) :
    collideOne ρ st i i = st := by
  unfold collideOne
  cases findPlayer st.players i <;> simp

theorem collideOne_inv (ρ : ℕ → ℝ) (st : CollSt) (a b : ℕ)
    (h : st.eaten.Nodup ∧ st.deaths.map Prod.fst = st.eaten) :
    (collideOne ρ st a b).eaten.Nodup ∧
      (collideOne ρ st a b).deaths.map Prod.fst = (collideOne ρ st a b).eaten := by
  unfold collideOne
  cases hA : findPlayer st.players a with
  | none => simpa using h
  | some A =>
      cases hB : findPlayer st.players b with
      | none => simpa using h
      | some B =>
          simp only []
          split_ifs with h1 h2 h3 h4
          · exact h
          · exact h
          · exact h
          · simp only [handlePlayerDeath, List.map_append]
            refine ⟨?_, ?_⟩
            · simp [List.Nodup.append h.1 (List.nodup_singleton b), h4]
            · rw [h.2, findPlayer_id hB]
              simp
          · exact h

theorem collisionPhase_inv (ps : List Player) (ρ : ℕ → ℝ) (k : ℕ) :
    (collisionPhase ps ρ k).eaten.Nodup ∧
      (collisionPhase ps ρ k).deaths.map Prod.fst = (collisionPhase ps ρ k).eaten := by
  unfold collisionPhase
  apply foldl_preserve
    (P := fun st : CollSt => st.eaten.Nodup ∧ st.deaths.map Prod.fst = st.eaten)
  · intro st a hst
    apply foldl_preserve
      (P := fun st : CollSt => st.eaten.Nodup ∧ st.deaths.map Prod.fst = st.eaten)
    · intro st2 b hst2
      exact collideOne_inv ρ st2 a b hst2
    · exact hst
  · exact ⟨List.nodup_nil, rfl⟩

theorem collideOne_skips_smaller (ρ : ℕ → ℝ) (st : CollSt) (a b : ℕ) (A B : Player)
    (hA : findPlayer st.players a = some A) (hB : findPlayer st.players b = some B)
    (hlt : jlt A.radius B.radius) : collideOne ρ st a b = st := by
  unfold collideOne
  rw [hA, hB]
  by_cases hab : a = b
  · simp [hab]
  · simp [hab, hlt]

theorem collideOne_eats (ρ : ℕ → ℝ) (st : CollSt) (a b : ℕ) (A B : Player)
    (hA : findPlayer st.players a = some A) (hB : findPlayer st.players b = some B)
    (hab : a ≠ b) (hlt : ¬ jlt A.radius B.radius)
    (hover : jlt (Constants.dist A.x A.y B.x B.y) (jmul A.radius (fin 0.9)))
    (hmem : b ∉ st.eaten) :
    collideOne ρ st a b =
      ⟨(handlePlayerDeath (mapSet st.players (consumeArea A (jmul B.radius B.radius))) B ρ st.k).1,
       st.eaten ++ [b], st.deaths ++ [(B.id, B.name, jfloor B.score)],
       (respawnPlayer B ρ st.k).2⟩ := by
  unfold collideOne
  rw [hA, hB]
  simp only [if_neg hab, if_neg hlt, if_pos hover, if_neg hmem]
  rfl

/-- C4: per tick, each victim is eliminated — and its score submitted to the
ledger — at most once (`eatenPlayers` is duplicate-free and death events
correspond to it one-to-one); and for two distinct live entities of equal
radius within the overlap-elimination distance, exactly the second one (in map
order) is eliminated, never both mutually. -/
theorem c4_at_most_one_elimination :
    (∀ (ps : List Player) (ρ : ℕ → ℝ) (k : ℕ),
      (collisionPhase ps ρ k).eaten.Nodup ∧
        (collisionPhase ps ρ k).deaths.map Prod.fst = (collisionPhase ps ρ k).eaten) ∧
    (∀ (p1 p2 : Player) (ρ : ℕ → ℝ) (k : ℕ) (r : ℝ),
      p1.radius = fin r → p2.radius = fin r → 10 ≤ r → p1.id ≠ p2.id →
      jlt (Constants.dist p1.x p1.y p2.x p2.y) (jmul p1.radius (fin 0.9)) →
      (collisionPhase [p1, p2] ρ k).eaten = [p2.id]) := by
  refine ⟨fun ps ρ k => collisionPhase_inv ps ρ k, ?_⟩
  intro p1 p2 ρ k r h1 h2 hr hid hover
  have hf1 : findPlayer [p1, p2] p1.id = some p1 := by
    unfold findPlayer
    rw [List.find?_cons_of_pos]
    simp
  have hf2 : findPlayer [p1, p2] p2.id = some p2 := by
    unfold findPlayer
    rw [List.find?_cons_of_neg _ (by simp [hid]), List.find?_cons_of_pos]
    simp
  have hnotlt : ¬ jlt p1.radius p2.radius := by
    rw [h1, h2]
    simp
  have e2 := collideOne_eats ρ ⟨[p1, p2], [], [], k⟩ p1.id p2.id p1 p2 hf1 hf2 hid
    hnotlt hover (List.not_mem_nil _)
  have hm1 : mapSet [p1, p2] (consumeArea p1 (jmul p2.radius p2.radius))
      = [consumeArea p1 (jmul p2.radius p2.radius), p2] := by
    unfold mapSet
    rw [if_pos (by simp)]
    simp [Ne.symm hid]
  have hm2 : mapSet [consumeArea p1 (jmul p2.radius p2.radius), p2]
        ((respawnPlayer p2 ρ k).1)
      = [consumeArea p1 (jmul p2.radius p2.radius), (respawnPlayer p2 ρ k).1] := by
    unfold mapSet
    rw [if_pos (by simp)]
    simp [hid]
  have hpl : (handlePlayerDeath
        (mapSet [p1, p2] (consumeArea p1 (jmul p2.radius p2.radius))) p2 ρ k).1
      = [consumeArea p1 (jmul p2.radius p2.radius), (respawnPlayer p2 ρ k).1] := by
    show mapSet (mapSet [p1, p2] (consumeArea p1 (jmul p2.radius p2.radius)))
        ((respawnPlayer p2 ρ k).1) = _
    rw [hm1, hm2]
  have hA1r : (consumeArea p1 (jmul p2.radius p2.radius)).radius
      = fin (Real.sqrt (r * r + r * r)) := by
    simp [consumeArea, h1, h2, jsqrt_fin _ (not_lt.mpr (by positivity : (0:ℝ) ≤ r * r + r * r))]
  have hjlt : jlt ((respawnPlayer p2 ρ k).1).radius
      (consumeArea p1 (jmul p2.radius p2.radius)).radius := by
    rw [hA1r]
    show jlt (fin Constants.INITIAL_RADIUS) _
    rw [show Constants.INITIAL_RADIUS = (10 : ℝ) from rfl]
    rw [jlt_fin_fin]
    rw [Real.lt_sqrt (by norm_num)]
    nlinarith
  have hfA : findPlayer [consumeArea p1 (jmul p2.radius p2.radius),
        (respawnPlayer p2 ρ k).1] p2.id = some ((respawnPlayer p2 ρ k).1) := by
    unfold findPlayer
    rw [List.find?_cons_of_neg _ (by simp [hid]), List.find?_cons_of_pos]
    simp
  have hfB : findPlayer [consumeArea p1 (jmul p2.radius p2.radius),
        (respawnPlayer p2 ρ k).1] p1.id
      = some (consumeArea p1 (jmul p2.radius p2.radius)) := by
    unfold findPlayer
    rw [List.find?_cons_of_pos]
    simp
  have e3 := collideOne_skips_smaller ρ
    ⟨[consumeArea p1 (jmul p2.radius p2.radius), (respawnPlayer p2 ρ k).1],
     [p2.id], [(p2.id, p2.name, jfloor p2.score)], (respawnPlayer p2 ρ k).2⟩
    p2.id p1.id ((respawnPlayer p2 ρ k).1) (consumeArea p1 (jmul p2.radius p2.radius))
    hfA hfB hjlt
  unfold collisionPhase
  simp only [List.map_cons, List.map_nil, List.foldl_cons, List.foldl_nil]
  rw [collideOne_self, collideOne_self, e2, hpl]
  simp only [List.nil_append]
  rw [e3]

/-- C4 witness: two radius-10 players at the same position — the first (in map
order) eats, and exactly the second is eliminated. -/
theorem c4_at_most_one_elimination_witness :
    (10 : ℝ) ≤ 10 ∧
      (collisionPhase [mkP 1 1000 1000 10 0 0 100, mkP 2 1000 1000 10 0 0 100]
          zeroRng 0).eaten = [2] := by
  refine ⟨le_refl 10, ?_⟩
  have h := c4_at_most_one_elimination.2
    (mkP 1 1000 1000 10 0 0 100) (mkP 2 1000 1000 10 0 0 100) zeroRng 0 10
    rfl rfl (le_refl 10) (by simp [mkP])
    (by
      norm_num [mkP, Constants.dist, jsub_fin_fin, jhypot_fin_fin, jmul_fin_fin,
        jlt_fin_fin, Real.sqrt_zero])
  simpa [mkP] using h

set_option maxHeartbeats 1600000 in
/-- C1: contrary to the claim (and to the comment "they will be respawned in
handlePlayerDeath"), the eaten entity does not remain in World State:
`handlePlayerDeath` re-inserts the respawned victim during the collision scan
(after the scan both ids 1 and 2 are still live), but the subsequent
`eatenPlayers.forEach(id => players.delete(id))` then removes it, so after the
tick the eaten entity (id 2) is gone from the live-entity collection. -/
theorem c1_eaten_player_removed_from_world :
    wEaten.players.map Player.id = [1, 2] ∧
      (collisionPhase (wEaten.players.map movePlayer) zeroRng 0).players.map Player.id
        = [1, 2] ∧
      (tick wEaten zeroRng 0).1.players.map Player.id = [1] := by
  have hs : (10 : ℝ) < Real.sqrt 136 := by
    rw [Real.lt_sqrt (by norm_num)]
    norm_num
  refine ⟨by simp [wEaten, mkP], ?_, ?_⟩ <;>
    norm_num [tick, wEaten, mkP, movePlayer, pelletPhase, eatPellets, collisionPhase,
      collideOne, findPlayer, mapSet, mapDelete, handlePlayerDeath, respawnPlayer,
      getRandomSpawn, consumeArea, Constants.dist, jsqrt, jhypot, jmax, jdiv, jadd,
      jmul, jsub, jneg, jlt, jfloor, max_def, hs, Constants.MIN_SPEED,
      Constants.INITIAL_SPEED, Constants.MAP_WIDTH, Constants.MAP_HEIGHT,
      Constants.INITIAL_RADIUS, Real.sqrt_zero]

/-!
## The numeric-state invariant of reachable worlds (score ∈ ℕ, radius = √score)
-/

theorem mem_mapSet {l : List Player} {p q : Player} (h : q ∈ mapSet l p) :
    q ∈ l ∨ q = p := by
  unfold mapSet at h
  split_ifs at h with hc
  · rcases List.mem_map.mp h with ⟨x, hx, hq⟩
    by_cases hid : x.id = p.id
    · right
      rw [← hq, if_pos hid]
    · left
      rw [← hq, if_neg hid]
      exact hx
  · rcases List.mem_append.mp h with h | h
    · exact Or.inl h
    · exact Or.inr (List.mem_singleton.mp h)

theorem good_movePlayer {p : Player} (h : GoodPlayer p) : GoodPlayer (movePlayer p) := h

theorem good_updateDir {p : Player} (dx dy : JVal) (h : GoodPlayer p) :
    GoodPlayer (updateDir p dx dy) := by
  obtain ⟨n, hs, hr⟩ := h
  simp only [updateDir]
  split_ifs <;> exact ⟨n, hs, hr⟩

theorem good_consumeArea {p : Player} {a : JVal} (m : ℕ) (ha : a = fin (m : ℝ))
    (h : GoodPlayer p) : GoodPlayer (consumeArea p a) := by
  obtain ⟨n, hs, hr⟩ := h
  refine ⟨n + m, ?_, ?_⟩
  · show jadd (jmul p.radius p.radius) a = _
    rw [hr, ha, jmul_fin_fin, Real.mul_self_sqrt (Nat.cast_nonneg n)]
    rw [jadd_fin_fin]
    norm_num
  · show jsqrt (jadd (jmul p.radius p.radius) a) = _
    rw [hr, ha, jmul_fin_fin, Real.mul_self_sqrt (Nat.cast_nonneg n), jadd_fin_fin]
    rw [jsqrt_fin _ (not_lt.mpr (by positivity))]
    norm_num

theorem sqrt_hundred : Real.sqrt ((100 : ℕ) : ℝ) = 10 := by
  rw [show (((100 : ℕ) : ℝ)) = 10 ^ 2 by norm_num, Real.sqrt_sq (by norm_num)]

theorem good_respawnPlayer (p : Player) (ρ : ℕ → ℝ) (k : ℕ) :
    GoodPlayer ((respawnPlayer p ρ k).1) := by
  refine ⟨100, ?_, ?_⟩
  · show jmul (fin Constants.INITIAL_RADIUS) (fin Constants.INITIAL_RADIUS) = _
    rw [jmul_fin_fin]
    norm_num [Constants.INITIAL_RADIUS]
  · show fin Constants.INITIAL_RADIUS = _
    rw [sqrt_hundred]
    norm_num [Constants.INITIAL_RADIUS]

theorem good_eatPellets (pels : List Pellet) :
    ∀ (p : Player) (ρ : ℕ → ℝ) (k : ℕ), GoodPlayer p →
      GoodPlayer (eatPellets p pels ρ k).1 := by
  induction pels with
  | nil => intro p ρ k h; exact h
  | cons pel rest ih =>
      intro p ρ k h
      simp only [eatPellets]
      split_ifs with hc
      · exact ih _ ρ _ (good_consumeArea 16
          (by norm_num [Constants.PELLET_RADIUS]) h)
      · exact ih _ ρ _ h

theorem good_pelletPhase (ps : List Player) :
    ∀ (pels : List Pellet) (ρ : ℕ → ℝ) (k : ℕ), (∀ p ∈ ps, GoodPlayer p) →
      ∀ q ∈ (pelletPhase ps pels ρ k).1, GoodPlayer q := by
  induction ps with
  | nil => intro pels ρ k _ q hq; simp [pelletPhase] at hq
  | cons p rest ih =>
      intro pels ρ k h q hq
      simp only [pelletPhase, List.mem_cons] at hq
      rcases hq with rfl | hq
      · exact good_eatPellets pels p ρ k (h p (List.mem_cons_self p rest))
      · exact ih _ ρ _ (fun x hx => h x (List.mem_cons_of_mem p hx)) q hq

theorem good_collideOne (ρ : ℕ → ℝ) (st : CollSt) (a b : ℕ)
    (h : ∀ p ∈ st.players, GoodPlayer p) :
    ∀ q ∈ (collideOne ρ st a b).players, GoodPlayer q := by
  unfold collideOne
  cases hA : findPlayer st.players a with
  | none => exact h
  | some A =>
      cases hB : findPlayer st.players b with
      | none => exact h
      | some B =>
          have hgA : GoodPlayer A := h A (List.mem_of_find?_eq_some hA)
          have hgB : GoodPlayer B := h B (List.mem_of_find?_eq_some hB)
          obtain ⟨nB, hsB, hrB⟩ := hgB
          simp only []
          split_ifs with h1 h2 h3 h4
          · exact h
          · exact h
          · exact h
          · intro q hq
            simp only [handlePlayerDeath] at hq
            rcases mem_mapSet hq with hq | rfl
            · rcases mem_mapSet hq with hq | rfl
              · exact h q hq
              · refine good_consumeArea nB ?_ hgA
                rw [hrB, jmul_fin_fin, Real.mul_self_sqrt (Nat.cast_nonneg nB)]
            · exact good_respawnPlayer B ρ st.k
          · exact h

theorem good_collisionPhase (ps : List Player) (ρ : ℕ → ℝ) (k : ℕ)
    (h : ∀ p ∈ ps, GoodPlayer p) :
    ∀ q ∈ (collisionPhase ps ρ k).players, GoodPlayer q := by
  unfold collisionPhase
  apply foldl_preserve (P := fun st : CollSt => ∀ p ∈ st.players, GoodPlayer p)
  · intro st i hst
    apply foldl_preserve (P := fun st : CollSt => ∀ p ∈ st.players, GoodPlayer p)
    · intro st2 j hst2
      exact good_collideOne ρ st2 i j hst2
    · exact hst
  · exact h

theorem mem_foldl_mapDelete :
    ∀ (ids : List ℕ) (l : List Player) (q : Player),
      q ∈ ids.foldl (fun l i => mapDelete l i) l → q ∈ l := by
  intro ids
  induction ids with
  | nil => intro l q h; exact h
  | cons i t ih =>
      intro l q h
      exact List.mem_of_mem_filter (ih (mapDelete l i) q h)

theorem good_tick (w : World) (ρ : ℕ → ℝ) (k : ℕ) (h : GoodWorld w) :
    GoodWorld (tick w ρ k).1 := by
  intro q hq
  simp only [tick] at hq
  have h1 := mem_foldl_mapDelete _ _ _ hq
  refine good_collisionPhase _ ρ _ ?_ q h1
  intro p hp
  refine good_pelletPhase _ _ ρ _ ?_ p hp
  intro x hx
  rcases List.mem_map.mp hx with ⟨y, hy, rfl⟩
  exact good_movePlayer (h y hy)

theorem good_handleJoin (w : World) (ρ : ℕ → ℝ) (k : ℕ) (nm : Option String)
    (h : GoodWorld w) : GoodWorld (handleJoin w ρ k nm).1 := by
  intro q hq
  simp only [handleJoin] at hq
  rcases mem_mapSet hq with hq | rfl
  · exact h q hq
  · refine ⟨100, ?_, ?_⟩
    · show jmul (fin Constants.INITIAL_RADIUS) (fin Constants.INITIAL_RADIUS) = _
      rw [jmul_fin_fin]
      norm_num [Constants.INITIAL_RADIUS]
    · show fin Constants.INITIAL_RADIUS = _
      rw [sqrt_hundred]
      norm_num [Constants.INITIAL_RADIUS]

theorem good_handleInput (w : World) (pid : ℕ) (dx dy : Option JVal)
    (h : GoodWorld w) : GoodWorld (handleInput w pid dx dy) := by
  intro q hq
  unfold handleInput at hq
  cases dx with
  | none => exact h q hq
  | some a =>
      cases dy with
      | none => exact h q hq
      | some b =>
          simp only [List.mem_map] at hq
          rcases hq with ⟨y, hy, rfl⟩
          by_cases hid : y.id = pid
          · rw [if_pos hid]
            exact good_updateDir a b (h y hy)
          · rw [if_neg hid]
            exact h y hy

theorem good_handleMessage (w : World) (conn : Option ℕ) (ρ : ℕ → ℝ) (k : ℕ)
    (m : Msg) (h : GoodWorld w) : GoodWorld (handleMessage w conn ρ k m).1 := by
  simp only [handleMessage]
  split_ifs with h1 h2
  · exact good_handleJoin w ρ k m.name h
  · cases conn with
    | none => exact h
    | some pid => exact good_handleInput w pid m.dx m.dy h
  · exact h

theorem reachable_good (w : World) (hw : Reachable w) : GoodWorld w := by
  induction hw with
  | init ρ k => intro q hq; simp [initialWorld] at hq
  | step_msg w conn ρ k m _ ih => exact good_handleMessage w conn ρ k m ih
  | step_tick w ρ k _ ih => exact good_tick w ρ k ih
  | step_close w i _ ih =>
      intro q hq
      exact ih q (List.mem_of_mem_filter hq)

/-- C9: the `init` message's player list reports the raw `p.score` with no
`Math.floor`, unlike the otherwise-identical `update` list.  Evaluated at a
state whose score has drifted off the integers (`pFrac`, the state IEEE doubles
produce after two pellet consumptions), the init snapshot reports the
fractional `132.00000000000001` while the floored integer of the entity's area
is `132` — so the init emission site violates the claim the update site
satisfies.  (In exact arithmetic the slip is invisible: `reachable_good` shows
scores then stay integral.) -/
theorem c9_init_snapshot_score_not_floored :
    (initSnapshot wFrac).map Snap.score = [fin 132.00000000000001] ∧
      (updateSnapshot wFrac).map Snap.score = [fin (132 : ℝ)] ∧
      jfloor (jmul pFrac.radius pFrac.radius) = fin (132 : ℝ) ∧
      fin (132.00000000000001 : ℝ) ≠ fin (132 : ℝ) := by
  have hnn : (0 : ℝ) ≤ 132.00000000000001 := by norm_num
  have hfl : ⌊(132.00000000000001 : ℝ)⌋ = 132 := by
    rw [Int.floor_eq_iff]
    constructor <;> norm_num
  refine ⟨?_, ?_, ?_, by simp; norm_num⟩
  · simp [initSnapshot, snapOf, wFrac, pFrac]
  · simp only [updateSnapshot, snapOf, wFrac, pFrac, List.map_cons, List.map_nil,
      jfloor_fin, hfl]
    norm_num
  · simp only [pFrac, jmul_fin_fin, Real.mul_self_sqrt hnn, jfloor_fin, hfl]
    norm_num
